import Mathlib

/-!
Verification of the constant-time comparison derivation of `subtle-derive`
(src/src/lib.rs), a proc-macro crate deriving `subtle`'s `ConstantTimeEq`,
`ConstantTimeGreater`, `ConstantTimeLess`, `PartialOrd` and `Ord`
implementations for structs.

The macro-level code (`field_names` and the statement lists emitted by
`derive_eq` / `derive_gt` / `derive_lt`) is embedded directly from the
source.  The comparison accumulators `IteratedEq` / `IteratedGreater` /
`IteratedLess` live in the external `subtle` dependency, whose source is
not part of this repository; they are modelled from the spec (sections
4.2 and 4.3).  Leaf field values are modelled as natural numbers and the
all-zeros/all-ones carrier as `Bool`.
-/

namespace SubtleDerive

/-- Embeds `syn::Fields` as used by src/src/lib.rs: named fields carry their
identifiers in declaration order, unnamed (tuple) fields carry only their
count (the macro turns indices into names), unit structs have no fields. -/
inductive SynFields where
  | named (idents : List String) : SynFields
  | unnamed (n : Nat) : SynFields
  | unit : SynFields

/-- Embeds the `syn::Data` alternatives matched by `field_names` in
src/src/lib.rs: a struct with fields, or an enum/union. -/
inductive SynData where
  | struct (fields : SynFields) : SynData
  | enumData : SynData
  | unionData : SynData

/-- Embeds `field_names` (src/src/lib.rs lines 14-38): named fields map to
their identifier strings in order, unnamed fields to their indices rendered
as strings (`enumerate().map(|(i, _)| i.to_string())`), unit structs to the
empty list.  The `panic!` on enums and unions is modelled as `none`: the
derivation fails before producing any implementation. -/
def field_names : SynData → Option (List String)
  | SynData.struct (SynFields.named idents) => some idents
  | SynData.struct (SynFields.unnamed n) => some ((List.range n).map toString)
  | SynData.struct SynFields.unit => some []
  | SynData.enumData => none
  | SynData.unionData => none

/-- Modelled from the spec: the leaf constant-time equality primitive
(`fieldEquals`), here on natural-number field values, with the
all-0s/all-1s carrier collapsed to `Bool`. -/
def ct_eq_leaf (x y : Nat) : Bool := decide (x = y)

/-- Modelled from the spec: the leaf constant-time greater-than primitive
(`fieldGreaterThan`). -/
def ct_gt_leaf (x y : Nat) : Bool := decide (y < x)

/-- Modelled from the spec: the leaf constant-time less-than primitive
(`fieldLessThan`). -/
def ct_lt_leaf (x y : Nat) : Bool := decide (x < y)

/-- Modelled from the spec (§4.2): the `subtle::IteratedEq` accumulator
object threaded by the generated `ct_eq` body, missing from this
repository's sources.  Its state is the running AND of all field
equalities. -/
structure IteratedEq where
  acc : Bool

/-- Modelled from the spec (§4.2): `IteratedEq::initiate` starts the
accumulator at "true" (vacuous equality). -/
def IteratedEq.initiate : IteratedEq := ⟨true⟩

/-- Modelled from the spec (§4.2): `IteratedEq::apply_eq` unconditionally
ANDs the accumulator with the field's constant-time-equals carrier. -/
def IteratedEq.apply_eq (s : IteratedEq) (x y : Nat) : IteratedEq :=
  ⟨s.acc && ct_eq_leaf x y⟩

/-- Modelled from the spec (§4.2): `IteratedEq::extract_result` returns the
accumulated carrier. -/
def IteratedEq.extract_result (s : IteratedEq) : Bool := s.acc

/-- Modelled from the spec (§4.3): the `subtle::IteratedGreater` accumulator
object threaded by the generated `ct_gt` body, missing from this
repository's sources.  It carries the "still tied so far" mask and the
accumulated strict-greater result. -/
structure IteratedGreater where
  still_tied : Bool
  result : Bool

/-- Modelled from the spec (§4.3): `IteratedGreater::initiate` starts with
`stillTiedSoFar = true`, `result = false`. -/
def IteratedGreater.initiate : IteratedGreater := ⟨true, false⟩

/-- Modelled from the spec (§4.3): `IteratedGreater::apply_gt` performs
`result |= stillTiedSoFar & fieldGreaterThan` and
`stillTiedSoFar &= fieldEquals`, both unconditionally. -/
def IteratedGreater.apply_gt (s : IteratedGreater) (x y : Nat) : IteratedGreater :=
  ⟨s.still_tied && ct_eq_leaf x y, s.result || (s.still_tied && ct_gt_leaf x y)⟩

/-- Modelled from the spec (§4.3): `IteratedGreater::extract_result` returns
the accumulated strict-greater carrier. -/
def IteratedGreater.extract_result (s : IteratedGreater) : Bool := s.result

/-- Modelled from the spec (§4.3): the `subtle::IteratedLess` accumulator
object threaded by the generated `ct_lt` body, the symmetric accumulator
run using the per-field less-than primitive. -/
structure IteratedLess where
  still_tied : Bool
  result : Bool

/-- Modelled from the spec (§4.3): `IteratedLess::initiate`. -/
def IteratedLess.initiate : IteratedLess := ⟨true, false⟩

/-- Modelled from the spec (§4.3): `IteratedLess::apply_lt` performs
`result |= stillTiedSoFar & fieldLessThan` and
`stillTiedSoFar &= fieldEquals`, both unconditionally. -/
def IteratedLess.apply_lt (s : IteratedLess) (x y : Nat) : IteratedLess :=
  ⟨s.still_tied && ct_eq_leaf x y, s.result || (s.still_tied && ct_lt_leaf x y)⟩

/-- Modelled from the spec (§4.3): `IteratedLess::extract_result`. -/
def IteratedLess.extract_result (s : IteratedLess) : Bool := s.result

/-- The `ct_eq` body generated by `derive_eq` (src/src/lib.rs lines 64-99):
initiate an `IteratedEq`, call `apply_eq(&self.name, &other.name)` once per
field name in enumeration order, then `extract_result`.  Operands of
identical shape are two valuations `a b` of the same field-name list. -/
def ct_eq (names : List String) (a b : String → Nat) : Bool :=
  (names.foldl (fun s n => s.apply_eq (a n) (b n)) IteratedEq.initiate).extract_result

/-- The `ct_gt` body generated by `derive_gt` (src/src/lib.rs lines
153-188): initiate an `IteratedGreater`, call `apply_gt` once per field
name in enumeration order, then `extract_result`. -/
def ct_gt (names : List String) (a b : String → Nat) : Bool :=
  (names.foldl (fun s n => s.apply_gt (a n) (b n)) IteratedGreater.initiate).extract_result

/-- The `ct_lt` body generated by `derive_lt` (src/src/lib.rs lines
217-252): initiate an `IteratedLess`, call `apply_lt` once per field name
in enumeration order, then `extract_result`. -/
def ct_lt (names : List String) (a b : String → Nat) : Bool :=
  (names.foldl (fun s n => s.apply_lt (a n) (b n)) IteratedLess.initiate).extract_result

/-- The shape of the statements the derive macros emit into the generated
method body (src/src/lib.rs lines 72-79, 160-167, 224-231): one `initiate`
statement, one `apply` statement per field name, one `extract_result`
statement.  The semantic no-op `use ::subtle::...;` items are elided. -/
inductive Stmt where
  | initiate : Stmt
  | applyStep (name : String) : Stmt
  | extractResult : Stmt

/-- The statement list `derive_eq` emits as the `ct_eq` body
(src/src/lib.rs lines 69-86): `none` when `field_names` panics. -/
def derive_eq_body (data : SynData) : Option (List Stmt) :=
  (field_names data).map fun names =>
    Stmt.initiate :: (names.map Stmt.applyStep ++ [Stmt.extractResult])

/-- The statement list `derive_gt` emits as the `ct_gt` body
(src/src/lib.rs lines 158-174). -/
def derive_gt_body (data : SynData) : Option (List Stmt) :=
  (field_names data).map fun names =>
    Stmt.initiate :: (names.map Stmt.applyStep ++ [Stmt.extractResult])

/-- The statement list `derive_lt` emits as the `ct_lt` body
(src/src/lib.rs lines 222-238). -/
def derive_lt_body (data : SynData) : Option (List Stmt) :=
  (field_names data).map fun names =>
    Stmt.initiate :: (names.map Stmt.applyStep ++ [Stmt.extractResult])

/-- The sequence of field names a generated body applies its leaf-level
primitive to, in execution order. -/
def appliedFields : List Stmt → List String
  | [] => []
  | Stmt.applyStep n :: rest => n :: appliedFields rest
  | _ :: rest => appliedFields rest

/-- The `ct_eq` computation instrumented with a call counter, one increment
per invocation of the per-field leaf primitive (`apply_eq`), as the spec's
"instrumenting leaf primitives with a call counter" prescribes. -/
def ct_eq_invocations (names : List String) (a b : String → Nat) : Nat :=
  (names.foldl (fun (p : IteratedEq × Nat) n => (p.1.apply_eq (a n) (b n), p.2 + 1))
    (IteratedEq.initiate, 0)).2

/-- The `ct_gt` computation instrumented with a call counter, one increment
per invocation of the per-field leaf primitive (`apply_gt`). -/
def ct_gt_invocations (names : List String) (a b : String → Nat) : Nat :=
  (names.foldl (fun (p : IteratedGreater × Nat) n => (p.1.apply_gt (a n) (b n), p.2 + 1))
    (IteratedGreater.initiate, 0)).2

/-- The `ct_lt` computation instrumented with a call counter, one increment
per invocation of the per-field leaf primitive (`apply_lt`). -/
def ct_lt_invocations (names : List String) (a b : String → Nat) : Nat :=
  (names.foldl (fun (p : IteratedLess × Nat) n => (p.1.apply_lt (a n) (b n), p.2 + 1))
    (IteratedLess.initiate, 0)).2

/-- Follows the spec's words (§4.3), not the source: the single-pass
per-field accumulator loop, with the two locals `stillTiedSoFar` and
`result` threaded explicitly.  Each step performs (a)
`result |= stillTiedSoFar & fieldGreaterThan(a.field, b.field)` and then
(b) `stillTiedSoFar &= fieldEquals(a.field, b.field)`. -/
def singlePassGoGT (a b : String → Nat) : List String → Bool → Bool → Bool
  | [], _, result => result
  | n :: rest, stillTied, result =>
    singlePassGoGT a b rest (stillTied && ct_eq_leaf (a n) (b n))
      (result || (stillTied && ct_gt_leaf (a n) (b n)))

/-- Follows the spec's words (§4.3): `greaterThan` as the canonical
single-pass accumulator, `stillTiedSoFar = true`, `result = false`
initially. -/
def singlePassGreaterThan (names : List String) (a b : String → Nat) : Bool :=
  singlePassGoGT a b names true false

/-- Follows the spec's words (§4.3), not the source: the symmetric
single-pass accumulator for `lessThan`, using the per-field less-than
primitive. -/
def singlePassGoLT (a b : String → Nat) : List String → Bool → Bool → Bool
  | [], _, result => result
  | n :: rest, stillTied, result =>
    singlePassGoLT a b rest (stillTied && ct_eq_leaf (a n) (b n))
      (result || (stillTied && ct_lt_leaf (a n) (b n)))

/-- Follows the spec's words (§4.3): `lessThan` as the canonical
single-pass accumulator. -/
def singlePassLessThan (names : List String) (a b : String → Nat) : Bool :=
  singlePassGoLT a b names true false

/-- Modelled from the spec (§4.4): the three-way comparison
`ct_cmp` / `ConstantTimeOrd` consumed by the `Ord` impl that `derive_ord`
(src/src/lib.rs lines 297-311) generates — evaluate `equals`; if true,
Equal; else evaluate `greaterThan`; if true, Greater; else Less.  The
`subtle` implementation is missing from this repository's sources. -/
def ct_cmp (names : List String) (a b : String → Nat) : Ordering :=
  if ct_eq names a b then Ordering.eq
  else if ct_gt names a b then Ordering.gt
  else Ordering.lt

/-- Modelled from the spec (§4.4): `ct_partial_cmp` / `ConstantTimePartialOrd`
consumed by the `PartialOrd` impl that `derive_partial_ord`
(src/src/lib.rs lines 267-281) generates; for identically shaped operands
it always produces the same {Less, Equal, Greater} outcome. -/
def ct_partial_cmp (names : List String) (a b : String → Nat) : Option Ordering :=
  some (ct_cmp names a b)

/-- Field names of the two-field scenario composites of the spec (§8). -/
def scenarioNames : List String := ["x", "y"]

/-- Scenario A first operand: fields `(x: 0, y: 1)`. -/
def vA1 : String → Nat := fun n => if n == "x" then 0 else 1

/-- Scenario A second operand: fields `(x: 0, y: 2)`. -/
def vA2 : String → Nat := fun n => if n == "x" then 0 else 2

/-- Scenario B first operand: fields `(x: 5, y: 9)`. -/
def vB1 : String → Nat := fun n => if n == "x" then 5 else 9

/-- Scenario B second operand: fields `(x: 3, y: 100)`. -/
def vB2 : String → Nat := fun n => if n == "x" then 3 else 100

/-- AND-reduction of the field-wise equality carriers, in field order. -/
def allEqP (a b : String → Nat) : List String → Bool
  | [] => true
  | n :: rest => ct_eq_leaf (a n) (b n) && allEqP a b rest

/-- Structural lexicographic strict-greater over the field sequence. -/
def lexGtP (a b : String → Nat) : List String → Bool
  | [] => false
  | n :: rest => ct_gt_leaf (a n) (b n) || (ct_eq_leaf (a n) (b n) && lexGtP a b rest)

/-- Structural lexicographic strict-less over the field sequence. -/
def lexLtP (a b : String → Nat) : List String → Bool
  | [] => false
  | n :: rest => ct_lt_leaf (a n) (b n) || (ct_eq_leaf (a n) (b n) && lexLtP a b rest)

lemma eq_foldl_acc (a b : String → Nat) (l : List String) (s : IteratedEq) :
    (l.foldl (fun s n => s.apply_eq (a n) (b n)) s).acc = (s.acc && allEqP a b l) := by
  induction l generalizing s with
  | nil => simp [allEqP]
  | cons n rest ih =>
      rw [List.foldl_cons, ih]
      obtain ⟨t⟩ := s
      cases t <;> simp [IteratedEq.apply_eq, allEqP, Bool.and_assoc]

lemma gt_foldl_result (a b : String → Nat) (l : List String) (s : IteratedGreater) :
    (l.foldl (fun s n => s.apply_gt (a n) (b n)) s).result =
      (s.result || (s.still_tied && lexGtP a b l)) := by
  induction l generalizing s with
  | nil => simp [lexGtP]
  | cons n rest ih =>
      rw [List.foldl_cons, ih]
      obtain ⟨t, r⟩ := s
      cases t <;> cases r <;>
        simp [IteratedGreater.apply_gt, lexGtP]

lemma lt_foldl_result (a b : String → Nat) (l : List String) (s : IteratedLess) :
    (l.foldl (fun s n => s.apply_lt (a n) (b n)) s).result =
      (s.result || (s.still_tied && lexLtP a b l)) := by
  induction l generalizing s with
  | nil => simp [lexLtP]
  | cons n rest ih =>
      rw [List.foldl_cons, ih]
      obtain ⟨t, r⟩ := s
      cases t <;> cases r <;>
        simp [IteratedLess.apply_lt, lexLtP]

lemma ct_eq_char (names : List String) (a b : String → Nat) :
    ct_eq names a b = allEqP a b names := by
  simp [ct_eq, IteratedEq.extract_result, eq_foldl_acc, IteratedEq.initiate]

lemma ct_gt_char (names : List String) (a b : String → Nat) :
    ct_gt names a b = lexGtP a b names := by
  simp [ct_gt, IteratedGreater.extract_result, gt_foldl_result, IteratedGreater.initiate]

lemma ct_lt_char (names : List String) (a b : String → Nat) :
    ct_lt names a b = lexLtP a b names := by
  simp [ct_lt, IteratedLess.extract_result, lt_foldl_result, IteratedLess.initiate]

lemma allEqP_eq_true_iff (a b : String → Nat) (l : List String) :
    allEqP a b l = true ↔ ∀ m ∈ l, a m = b m := by
  induction l with
  | nil => simp [allEqP]
  | cons n rest ih => simp [allEqP, ct_eq_leaf, ih]

lemma lexGtP_eq_true_iff (a b : String → Nat) (l : List String) :
    lexGtP a b l = true ↔
      ∃ pre n post, l = pre ++ n :: post ∧ (∀ m ∈ pre, a m = b m) ∧ b n < a n := by
  induction l with
  | nil =>
      constructor
      · intro h; simp [lexGtP] at h
      · rintro ⟨pre, n, post, h, -, -⟩
        cases pre <;> simp at h
  | cons x rest ih =>
      constructor
      · intro h
        simp only [lexGtP, Bool.or_eq_true, Bool.and_eq_true, ct_gt_leaf, ct_eq_leaf,
          decide_eq_true_eq] at h
        rcases h with hgt | ⟨heq, hrest⟩
        · exact ⟨[], x, rest, rfl, by simp, hgt⟩
        · obtain ⟨pre, n, post, hsplit, hpre, hn⟩ := ih.mp hrest
          refine ⟨x :: pre, n, post, by simp [hsplit], ?_, hn⟩
          intro m hm
          rcases List.mem_cons.mp hm with rfl | hm
          · exact heq
          · exact hpre m hm
      · rintro ⟨pre, n, post, hsplit, hpre, hn⟩
        cases pre with
        | nil =>
            simp only [List.nil_append] at hsplit
            injection hsplit with h1 h2
            subst h1; subst h2
            simp [lexGtP, ct_gt_leaf, hn]
        | cons p pre' =>
            simp only [List.cons_append] at hsplit
            injection hsplit with h1 h2
            subst h1
            have hax : a x = b x := hpre x (List.mem_cons_self x pre')
            have hrest : lexGtP a b rest = true := by
              refine ih.mpr ⟨pre', n, post, h2, ?_, hn⟩
              intro m hm
              exact hpre m (List.mem_cons_of_mem _ hm)
            simp [lexGtP, ct_eq_leaf, hax, hrest]

lemma trichotomy_aux (a b : String → Nat) (l : List String) :
    (allEqP a b l = true ∧ lexGtP a b l = false ∧ lexLtP a b l = false) ∨
    (allEqP a b l = false ∧ lexGtP a b l = true ∧ lexLtP a b l = false) ∨
    (allEqP a b l = false ∧ lexGtP a b l = false ∧ lexLtP a b l = true) := by
  induction l with
  | nil => left; exact ⟨rfl, rfl, rfl⟩
  | cons n rest ih =>
      rcases Nat.lt_trichotomy (a n) (b n) with h | h | h
      · right; right
        have e : ct_eq_leaf (a n) (b n) = false := decide_eq_false (by omega)
        have g : ct_gt_leaf (a n) (b n) = false := decide_eq_false (by omega)
        have lt : ct_lt_leaf (a n) (b n) = true := decide_eq_true h
        simp [allEqP, lexGtP, lexLtP, e, g, lt]
      · have e : ct_eq_leaf (a n) (b n) = true := decide_eq_true h
        have g : ct_gt_leaf (a n) (b n) = false := decide_eq_false (by omega)
        have lt : ct_lt_leaf (a n) (b n) = false := decide_eq_false (by omega)
        simpa [allEqP, lexGtP, lexLtP, e, g, lt] using ih
      · right; left
        have e : ct_eq_leaf (a n) (b n) = false := decide_eq_false (by omega)
        have g : ct_gt_leaf (a n) (b n) = true := decide_eq_true h
        have lt : ct_lt_leaf (a n) (b n) = false := decide_eq_false (by omega)
        simp [allEqP, lexGtP, lexLtP, e, g, lt]

lemma lexGtP_swap (a b : String → Nat) (l : List String) :
    lexGtP a b l = lexLtP b a l := by
  induction l with
  | nil => rfl
  | cons n rest ih =>
      have e : ct_eq_leaf (a n) (b n) = ct_eq_leaf (b n) (a n) :=
        decide_eq_decide.mpr eq_comm
      simp [lexGtP, lexLtP, ct_gt_leaf, ct_lt_leaf, ih, e]

lemma singlePassGoGT_char (a b : String → Nat) (l : List String) :
    ∀ tied res : Bool, singlePassGoGT a b l tied res = (res || (tied && lexGtP a b l)) := by
  induction l with
  | nil => intro tied res; simp [singlePassGoGT, lexGtP]
  | cons n rest ih =>
      intro tied res
      cases tied <;> cases res <;>
        simp [singlePassGoGT, ih, lexGtP]

lemma singlePassGoLT_char (a b : String → Nat) (l : List String) :
    ∀ tied res : Bool, singlePassGoLT a b l tied res = (res || (tied && lexLtP a b l)) := by
  induction l with
  | nil => intro tied res; simp [singlePassGoLT, lexLtP]
  | cons n rest ih =>
      intro tied res
      cases tied <;> cases res <;>
        simp [singlePassGoLT, ih, lexLtP]

lemma foldl_snd_count {σ : Type} (f : σ → String → σ) (l : List String) :
    ∀ (s : σ) (c : Nat),
      (l.foldl (fun p n => (f p.1 n, p.2 + 1)) (s, c)).2 = c + l.length := by
  induction l with
  | nil => intro s c; simp
  | cons x rest ih =>
      intro s c
      simp only [List.foldl_cons]
      rw [ih]
      simp only [List.length_cons]
      omega

lemma appliedFields_of_body (names : List String) :
    appliedFields (Stmt.initiate :: (names.map Stmt.applyStep ++ [Stmt.extractResult])) =
      names := by
  induction names with
  | nil => rfl
  | cons n rest ih => simpa [appliedFields] using ih

/-- C1: for identically shaped composites, the derived `greaterThan` is true
iff at the first differing field in enumeration order the left operand's
value is strictly greater than the right's, every later field having no
effect; in particular Scenario B, `(x: 5, y: 9)` versus `(x: 3, y: 100)`,
yields `greaterThan(first, second) = true`. -/
theorem ct_gt_first_differing_field (names : List String) (a b : String → Nat) :
    (ct_gt names a b = true ↔
      ∃ pre n post, names = pre ++ n :: post ∧ (∀ m ∈ pre, a m = b m) ∧ b n < a n) ∧
    ct_gt scenarioNames vB1 vB2 = true := by
  constructor
  · rw [ct_gt_char]
    exact lexGtP_eq_true_iff a b names
  · decide

theorem ct_gt_first_differing_field_witness : ct_gt scenarioNames vB1 vB2 = true :=
  (ct_gt_first_differing_field scenarioNames vB1 vB2).2

/-- C2: the derived `equals` is true iff every corresponding field pair is
equal; in particular Scenario A, `(x: 0, y: 1)` versus `(x: 0, y: 2)`,
yields `equals = false`, `greaterThan(first, second) = false` and
`greaterThan(second, first) = true`. -/
theorem ct_eq_iff_all_fields_equal (names : List String) (a b : String → Nat) :
    (ct_eq names a b = true ↔ ∀ m ∈ names, a m = b m) ∧
    ct_eq scenarioNames vA1 vA2 = false ∧
    ct_gt scenarioNames vA1 vA2 = false ∧
    ct_gt scenarioNames vA2 vA1 = true := by
  refine ⟨?_, by decide, by decide, by decide⟩
  rw [ct_eq_char]
  exact allEqP_eq_true_iff a b names

theorem ct_eq_iff_all_fields_equal_witness : ct_eq scenarioNames vA1 vA1 = true :=
  (ct_eq_iff_all_fields_equal scenarioNames vA1 vA1).1.mpr (fun _ _ => rfl)

/-- C3: each derived comparison invokes its per-field leaf primitive exactly
once per field: the instrumented invocation count equals the field count
for all operand values — identical operands, operands differing at the
first field, and operands differing at the last field alike — for
`equals`, `greaterThan` and `lessThan`; nothing exits early or skips a
field based on operand values. -/
theorem invocation_count_equals_field_count (names : List String) (a b : String → Nat) :
    ct_eq_invocations names a b = names.length ∧
    ct_gt_invocations names a b = names.length ∧
    ct_lt_invocations names a b = names.length := by
  refine ⟨?_, ?_, ?_⟩
  · simpa [ct_eq_invocations] using
      foldl_snd_count (fun s n => IteratedEq.apply_eq s (a n) (b n)) names
        IteratedEq.initiate 0
  · simpa [ct_gt_invocations] using
      foldl_snd_count (fun s n => IteratedGreater.apply_gt s (a n) (b n)) names
        IteratedGreater.initiate 0
  · simpa [ct_lt_invocations] using
      foldl_snd_count (fun s n => IteratedLess.apply_lt s (a n) (b n)) names
        IteratedLess.initiate 0

/-- C4: trichotomy — for any identically shaped pair, exactly one of the
derived `equals`, `greaterThan`, `lessThan` is true and the other two are
false. -/
theorem comparison_trichotomy (names : List String) (a b : String → Nat) :
    (ct_eq names a b = true ∧ ct_gt names a b = false ∧ ct_lt names a b = false) ∨
    (ct_eq names a b = false ∧ ct_gt names a b = true ∧ ct_lt names a b = false) ∨
    (ct_eq names a b = false ∧ ct_gt names a b = false ∧ ct_lt names a b = true) := by
  rw [ct_eq_char, ct_gt_char, ct_lt_char]
  exact trichotomy_aux a b names

/-- C5: the spec's single-pass per-field accumulator and the iterated
accumulator object with separate initiate/apply/extract steps threaded by
the generated code compute the same `greaterThan` and `lessThan` results
on every identically shaped pair. -/
theorem single_pass_equiv_iterated (names : List String) (a b : String → Nat) :
    singlePassGreaterThan names a b = ct_gt names a b ∧
    singlePassLessThan names a b = ct_lt names a b := by
  constructor
  · simp [singlePassGreaterThan, singlePassGoGT_char, ct_gt_char]
  · simp [singlePassLessThan, singlePassGoLT_char, ct_lt_char]

/-- C6: antisymmetry — `greaterThan(a, b)` is true iff `lessThan(b, a)` is
true. -/
theorem gt_iff_lt_swapped (names : List String) (a b : String → Nat) :
    ct_gt names a b = true ↔ ct_lt names b a = true := by
  rw [ct_gt_char, ct_lt_char, lexGtP_swap]

theorem gt_iff_lt_swapped_witness : ct_lt scenarioNames vA1 vA2 = true :=
  (gt_iff_lt_swapped scenarioNames vA2 vA1).mp (by decide)

/-- C7: a zero-field composite (unit struct) enumerates no fields, and any
two instances compare as `equals = true`, `greaterThan = false`,
`lessThan = false`. -/
theorem zero_field_composite_behavior :
    field_names (SynData.struct SynFields.unit) = some [] ∧
    ∀ a b : String → Nat,
      ct_eq [] a b = true ∧ ct_gt [] a b = false ∧ ct_lt [] a b = false :=
  ⟨rfl, fun _ _ => ⟨rfl, rfl, rfl⟩⟩

/-- C8: the order adapter returns Equal when `equals` is true, otherwise
Greater when `greaterThan` is true, otherwise Less; over the Scenario A
pair, `compare` yields Greater for (second, first) and Less for
(first, second). -/
theorem ct_cmp_adapter (names : List String) (a b : String → Nat) :
    (ct_eq names a b = true → ct_cmp names a b = Ordering.eq) ∧
    (ct_eq names a b = false → ct_gt names a b = true → ct_cmp names a b = Ordering.gt) ∧
    (ct_eq names a b = false → ct_gt names a b = false → ct_cmp names a b = Ordering.lt) ∧
    ct_partial_cmp scenarioNames vA2 vA1 = some Ordering.gt ∧
    ct_partial_cmp scenarioNames vA1 vA2 = some Ordering.lt := by
  refine ⟨?_, ?_, ?_, by decide, by decide⟩
  · intro h
    simp [ct_cmp, h]
  · intro h1 h2
    simp [ct_cmp, h1, h2]
  · intro h1 h2
    simp [ct_cmp, h1, h2]

theorem ct_cmp_adapter_witness : ct_cmp scenarioNames vA1 vA2 = Ordering.lt :=
  (ct_cmp_adapter scenarioNames vA1 vA2).2.2.1 (by decide) (by decide)

/-- C9: enums and unions are rejected at derivation time: the field
enumerator fails, and none of the three derive macros produces a
comparison body — there is no implementation and no recoverable runtime
error. -/
theorem variant_types_rejected :
    field_names SynData.enumData = none ∧
    field_names SynData.unionData = none ∧
    derive_eq_body SynData.enumData = none ∧
    derive_gt_body SynData.enumData = none ∧
    derive_lt_body SynData.enumData = none ∧
    derive_eq_body SynData.unionData = none ∧
    derive_gt_body SynData.unionData = none ∧
    derive_lt_body SynData.unionData = none :=
  ⟨rfl, rfl, rfl, rfl, rfl, rfl, rfl, rfl⟩

/-- C10: the three derive macros emit identical bodies driven by the same
single field enumeration; whenever the enumeration succeeds the body
applies its leaf primitive exactly in `field_names` order, which is
declaration order for named fields and ascending positional index
(rendered as a string) for tuple fields. -/
theorem derives_share_field_enumeration :
    (∀ data : SynData, derive_eq_body data = derive_gt_body data ∧
        derive_lt_body data = derive_gt_body data) ∧
    (∀ (data : SynData) (names : List String), field_names data = some names →
        ∃ body, derive_eq_body data = some body ∧ appliedFields body = names) ∧
    (∀ idents, field_names (SynData.struct (SynFields.named idents)) = some idents) ∧
    (∀ n, field_names (SynData.struct (SynFields.unnamed n)) =
        some ((List.range n).map toString)) := by
  refine ⟨fun data => ⟨rfl, rfl⟩, ?_, fun idents => rfl, fun n => rfl⟩
  intro data names h
  exact ⟨Stmt.initiate :: (names.map Stmt.applyStep ++ [Stmt.extractResult]),
    by simp [derive_eq_body, h], appliedFields_of_body names⟩

theorem derives_share_field_enumeration_witness :
    ∃ body, derive_eq_body (SynData.struct (SynFields.named ["x", "y"])) = some body ∧
      appliedFields body = ["x", "y"] :=
  derives_share_field_enumeration.2.1 (SynData.struct (SynFields.named ["x", "y"]))
    ["x", "y"] rfl

end SubtleDerive
